import Mathlib

/-!
# Verification of the drydock discovery-and-selection resolver

Shallow embedding of the core of the `drydock` repository: the GAR URI
parser (`ParseArtifactURI`), the selection policy (`selectBestDigest`),
the repository scanner (`scanRepository`), the lazy resolver sequence
(`AllLatestImages`) and the scan orchestrator (`Scanner.Scan`).

Go strings are modelled as `List Char`; Go's `time.Time` as `Int`
(`After` is `>`); Go errors as the inductive `GoError`; fallible code
returns `Except GoError`.  The external Artifact Registry collaborators
(repository iterator, per-repository image iterator, analyzer, exporter)
are modelled as explicit environments holding the streams of values their
successive calls return.
-/

set_option autoImplicit false

namespace Drydock

/-- Go string model. -/
abbrev Str := List Char

/-! ## Small list helpers (models of Go string/slice primitives) -/

/-- Split a list at the first occurrence of `sep`: returns the part before
and the part after, or `none` when `sep` does not occur.  Used to model
the `/`-separated structure that the anchored GAR regex imposes. -/
def splitFirst (sep : Char) : Str → Option (Str × Str)
  | [] => none
  | c :: cs =>
    if c = sep then some ([], cs)
    else (splitFirst sep cs).map (fun p => (c :: p.1, p.2))

/-- Model of Go `strings.Split(s, sep)` for a one-character separator:
always returns one more part than there are separators. -/
def splitOnChar (sep : Char) : Str → List Str
  | [] => [[]]
  | c :: cs =>
    if c = sep then [] :: splitOnChar sep cs
    else
      match splitOnChar sep cs with
      | [] => [[c]]
      | g :: gs => (c :: g) :: gs

/-! ## Character classes of the GAR regex

The source regex (resolver.go) is
`^([a-z0-9-]+-docker\.pkg\.dev)/([^/]+)/([^/]+)/([^:@]+)(?::([^@]+))?(?:@(sha256:[a-fA-F0-9]{64}))?$`.
-/

/-- The `[a-z0-9-]` class of the host group. -/
def isHostChar (c : Char) : Bool :=
  ('a' ≤ c && c ≤ 'z') || ('0' ≤ c && c ≤ '9') || c == '-'

/-- The `[a-fA-F0-9]` class of the digest group. -/
def isHexChar (c : Char) : Bool :=
  ('0' ≤ c && c ≤ '9') || ('a' ≤ c && c ≤ 'f') || ('A' ≤ c && c ≤ 'F')

/-- The literal tail `-docker.pkg.dev` of the host group (15 characters). -/
def hostSuffix : Str := ("-docker.pkg.dev").data

/-- The literal prefix `sha256:` of the digest group (7 characters). -/
def sha256Colon : Str := ("sha256:").data

/-- Full match of `h` against the host group `[a-z0-9-]+-docker\.pkg\.dev`:
the last 15 characters are the literal `-docker.pkg.dev` and the (nonempty)
remainder consists of `[a-z0-9-]` characters.  The decomposition is unique
because the literal is the tail of the pattern and `[a-z0-9-]` matches no
dot. -/
def matchesHost (h : Str) : Bool :=
  16 ≤ h.length &&
    h.drop (h.length - 15) == hostSuffix &&
    (h.take (h.length - 15)).all isHostChar

/-- Full match of `d` against the digest group `sha256:[a-fA-F0-9]{64}`. -/
def matchesDigest (d : Str) : Bool :=
  d.take 7 == sha256Colon && d.length == 71 && (d.drop 7).all isHexChar

/-! ## Data model -/

/-- Embedding of `schemas.ArtifactReference` (types.go): the parsed
components of a Google Artifact Registry URI.  `Tag`/`Digest` are the Go
`*string` fields; the source builds them with `utils.ToPtr`, which maps
the empty string to `nil`, so `some` values are always nonempty. -/
structure ArtifactReference where
  Host : Str
  ProjectID : Str
  RepositoryID : Str
  ImageName : Str
  Tag : Option Str
  Digest : Option Str
deriving Repr, DecidableEq

/-- Embedding of Go `error` values as produced by this code base:
an opaque message (collaborator failures, `fmt.Errorf` without `%w`), a
wrapping of an inner error (`fmt.Errorf("...: %w", err)` and the
`%s`/`%v` composites, whose exact text is immaterial here), or a join of
two errors (`errors.Join` with two non-nil arguments). -/
inductive GoError where
  | msg (text : Str)
  | wrap (context : Str) (inner : GoError)
  | join (first second : GoError)
deriving Repr, DecidableEq

instance exceptDecEq {ε α : Type} [DecidableEq ε] [DecidableEq α] :
    DecidableEq (Except ε α) := fun a b =>
  match a, b with
  | .ok x, .ok y =>
    if h : x = y then .isTrue (by rw [h])
    else .isFalse (by intro hq; cases hq; exact h rfl)
  | .ok _, .error _ => .isFalse (by intro hq; cases hq)
  | .error _, .ok _ => .isFalse (by intro hq; cases hq)
  | .error x, .error y =>
    if h : x = y then .isTrue (by rw [h])
    else .isFalse (by intro hq; cases hq; exact h rfl)

/-- Embedding of `ArtifactReference.String()` (types.go lines 138-150):
`host/project/repository/image[:tag][@digest]`. -/
def ArtifactReference.render (a : ArtifactReference) : Str :=
  a.Host ++ '/' :: a.ProjectID ++ '/' :: a.RepositoryID ++ '/' :: a.ImageName
    ++ (match a.Tag with | some t => ':' :: t | none => [])
    ++ (match a.Digest with | some d => '@' :: d | none => [])

/-! ## URI parser

`ParseArtifactURI` (resolver.go lines 245-261) matches the anchored regex
`compiledGarRegex` and returns the capture groups.  The embedding below is
the deterministic decomposition the anchored regex performs:
* group 1 must be the whole first `/`-segment (the host pattern contains
  no `/`, and the group is followed by a literal `/`), fully matching the
  host pattern;
* groups 2 and 3 are `[^/]+` followed by `/`: exactly the next two
  nonempty segments;
* group 4 (`[^:@]+`, greedy) is the longest `:`/`@`-free prefix of the
  remainder (it may contain `/`), and must be nonempty;
* the optional tag group consumes a `:` and then the longest `@`-free
  (nonempty) run; the optional digest group consumes a `@` and the digest
  pattern must then match the entire rest of the string.
Shortening any greedy group only exposes a character that the following
literal cannot match, so the greedy decomposition is the only candidate,
exactly as for the backtracking-preference capture semantics of the Go
regexp package.  The single failure exit of the Go function is the
`matches == nil` case. -/
def parseFailure (uri : Str) : GoError :=
  .msg (("invalid GAR URI format: ").data ++ uri)

/-- A character the image-path group `[^:@]+` accepts. -/
def isImageChar (c : Char) : Bool := !(c == ':' || c == '@')

/-- Embedding of `ParseArtifactURI` (resolver.go). -/
def ParseArtifactURI (uri : Str) : Except GoError ArtifactReference :=
  match splitFirst '/' uri with
  | none => .error (parseFailure uri)
  | some (host, rest1) =>
    if matchesHost host then
      match splitFirst '/' rest1 with
      | none => .error (parseFailure uri)
      | some (projectID, rest2) =>
        if projectID = [] then .error (parseFailure uri)
        else
          match splitFirst '/' rest2 with
          | none => .error (parseFailure uri)
          | some (repositoryID, rest3) =>
            if repositoryID = [] then .error (parseFailure uri)
            else
              let imageName := rest3.takeWhile isImageChar
              let afterImage := rest3.dropWhile isImageChar
              if imageName = [] then .error (parseFailure uri)
              else
                match afterImage with
                | [] =>
                  .ok ⟨host, projectID, repositoryID, imageName, none, none⟩
                | c :: afterC =>
                  if c = ':' then
                    let tag := afterC.takeWhile (fun x => !(x == '@'))
                    let afterTag := afterC.dropWhile (fun x => !(x == '@'))
                    if tag = [] then .error (parseFailure uri)
                    else
                      match afterTag with
                      | [] =>
                        .ok ⟨host, projectID, repositoryID, imageName, some tag, none⟩
                      | d :: digestChars =>
                        -- `d` is necessarily `'@'` (the `dropWhile` stopped there)
                        if d = '@' then
                          if matchesDigest digestChars then
                            .ok ⟨host, projectID, repositoryID, imageName,
                              some tag, some digestChars⟩
                          else .error (parseFailure uri)
                        else .error (parseFailure uri)
                  else if c = '@' then
                    if matchesDigest afterC then
                      .ok ⟨host, projectID, repositoryID, imageName, none, some afterC⟩
                    else .error (parseFailure uri)
                  else .error (parseFailure uri)
    else .error (parseFailure uri)

/-- Embedding of `extractLocationAndRepository` (resolver.go lines
263-271): positional decode of
`projects/{project}/locations/{location}/repositories/{repo}`. -/
def extractLocationAndRepository (repoName : Str) : Str × Str :=
  let parts := splitOnChar '/' repoName
  if h : 6 ≤ parts.length then
    (parts.get ⟨3, by omega⟩, parts.get ⟨5, by omega⟩)
  else
    ([], [])

/-! ## Selection policy -/

/-- Embedding of the internal `candidateImage` (resolver.go lines 39-45).
`UpdateTime` models `time.Time` as an integer instant (`After` = `>`);
the Go zero value is modelled as `0`. -/
structure candidateImage where
  Digest : Str
  Tags : List Str
  UpdateTime : Int
  URI : Str
deriving Repr, DecidableEq

/-- The zero-value `candidateImage{}` sentinel. -/
def candidateImage.zero : candidateImage := ⟨[], [], 0, []⟩

/-- The literal tag `"latest"`. -/
def latestTag : Str := ("latest").data

/-- Model of `slices.Contains(c.Tags, "latest")`. -/
def hasLatest (c : candidateImage) : Bool := c.Tags.contains latestTag

/-- The scan loop of `selectBestDigest`: `newest` starts at
`candidates[0]` and the loop ranges over all of `candidates`, returning
immediately on a `latest` tag and otherwise tracking the strictly most
recent update time. -/
def selectLoop : List candidateImage → candidateImage → candidateImage
  | [], newest => newest
  | c :: rest, newest =>
    if hasLatest c then c
    else if newest.UpdateTime < c.UpdateTime then selectLoop rest c
    else selectLoop rest newest

/-- Embedding of `selectBestDigest` (resolver.go lines 199-239).  The
`imageName`/`location`/`repository` arguments are only used by the source
for logging and are kept for shape. -/
def selectBestDigest (imageName location repository : Str)
    (candidates : List candidateImage) : candidateImage :=
  match candidates with
  | [] => candidateImage.zero
  | c0 :: _ => selectLoop candidates c0

/-! ## Repository scanner (`scanRepository`, resolver.go lines 111-194)

The Artifact Registry collaborators are modelled by an environment: the
stream of results that successive `repoIt.Next()` calls return (the
stream's end models `iterator.Done`; after a non-`Done` error the code
never calls `Next` again) and, per repository name, the stream of results
of `it.Next()` for that repository's `ListDockerImages` iterator. -/

/-- One entry of a Docker-image listing (the fields of
`artifactregistrypb.DockerImage` the code reads). -/
structure DockerImage where
  Uri : Str
  Tags : List Str
  UpdateTime : Int
deriving Repr, DecidableEq

/-- The repository format enum (`artifactregistrypb.Repository_Format`);
the code only compares against `DOCKER`. -/
inductive RepoFormat where
  | FORMAT_UNSPECIFIED
  | DOCKER
  | MAVEN
  | NPM
  | APT
  | YUM
  | PYTHON
deriving Repr, DecidableEq

/-- The fields of `artifactregistrypb.Repository` the code reads. -/
structure Repository where
  Name : Str
  Format : RepoFormat
deriving Repr, DecidableEq

/-- Embedding of `ImageTarget` (resolver.go lines 32-37). -/
structure ImageTarget where
  Artifact : ArtifactReference
  URI : Str
  Location : Str
deriving Repr, DecidableEq

/-- The zero-value `ImageTarget{}` yielded alongside errors. -/
def ImageTarget.empty : ImageTarget := ⟨⟨[], [], [], [], none, none⟩, [], []⟩

/-- Environment of the resolver: what the registry collaborators return. -/
structure ResolverEnv where
  repoStream : List (Except GoError Repository)
  images : Str → List (Except GoError DockerImage)

/-- The constant `MaxCandidates` (resolver.go line 24). -/
def MaxCandidates : Nat := 5

/-- The two maps of the listing loop: `grouped` (`map[string][]candidateImage`,
modelled as an insertion-ordered association list, fixing Go's
unspecified map iteration order to insertion order) and `counts`
(`map[string]int`, a total function with Go's zero default). -/
structure scanState where
  grouped : List (Str × List candidateImage)
  counts : Str → Nat

/-- The empty maps the listing loop starts from. -/
def scanState.init : scanState := ⟨[], fun _ => 0⟩

/-- Lookup in the association-list model of `grouped` (missing key =
Go's `nil` slice). -/
def assocGet : List (Str × List candidateImage) → Str → List candidateImage
  | [], _ => []
  | (k, cs) :: rest, n => if k = n then cs else assocGet rest n

/-- Model of `grouped[name] = append(grouped[name], c)` on the association list. -/
def assocAppend : List (Str × List candidateImage) → Str → candidateImage →
    List (Str × List candidateImage)
  | [], n, c => [(n, [c])]
  | (k, cs) :: rest, n, c =>
    if k = n then (k, cs ++ [c]) :: rest
    else (k, cs) :: assocAppend rest n c

/-- The listing loop of `scanRepository` (resolver.go lines 127-163):
drains the image iterator, failing on an iterator error, failing on an
unparsable URI, skipping digest-less entries, and retaining at most
`MaxCandidates` candidates per image name. -/
def collectCandidates (st : scanState) :
    List (Except GoError DockerImage) → Except GoError scanState
  | [] => .ok st
  | .error e :: _ => .error e
  | .ok img :: rest =>
    match ParseArtifactURI img.Uri with
    | .error e => .error (.wrap (("invalid image URI ").data ++ img.Uri) e)
    | .ok ref =>
      match ref.Digest with
      | none => collectCandidates st rest
      | some digest =>
        if MaxCandidates ≤ st.counts ref.ImageName then collectCandidates st rest
        else
          collectCandidates
            ⟨assocAppend st.grouped ref.ImageName
              ⟨digest, img.Tags, img.UpdateTime, img.Uri⟩,
             fun n => if n = ref.ImageName then st.counts n + 1 else st.counts n⟩
            rest

/-- The per-group emission step of the selection phase (resolver.go lines
167-191): run the selection policy, drop groups whose best candidate has
an empty digest, re-parse the best candidate's URI (skipping the group
with a warning if that fails) and build the target. -/
def emitGroup (location repository name : Str) (cands : List candidateImage) :
    List ImageTarget :=
  let best := selectBestDigest name location repository cands
  if best.Digest = [] then []
  else
    match ParseArtifactURI best.URI with
    | .error _ => []
    | .ok artifactRef => [⟨artifactRef, best.URI, location⟩]

/-- Embedding of `scanRepository` (resolver.go lines 111-194). -/
def scanRepository (env : ResolverEnv) (repoName : Str) :
    Except GoError (List ImageTarget) :=
  let lr := extractLocationAndRepository repoName
  match collectCandidates scanState.init (env.images repoName) with
  | .error e => .error e
  | .ok st => .ok ((st.grouped.map (fun p => emitGroup lr.1 lr.2 p.1 p.2)).join)

/-! ## Resolver sequence (`AllLatestImages`, resolver.go lines 64-108)

`iter.Seq2` is a push iterator: the generator body calls
`yield(target, err)` and stops as soon as `yield` returns `false`.  The
consumer is modelled as a function from the items already yielded (its
arbitrary private state can only depend on those) and the item being
yielded to the decision to continue.  The run of the generator returns
the list of all yielded items. -/

/-- A consumer of the `iter.Seq2[ImageTarget, error]` sequence. -/
def Consumer : Type :=
  List (ImageTarget × Option GoError) → ImageTarget × Option GoError → Bool

/-- The always-continuing consumer (`range` without `break`). -/
def consumeAll : Consumer := fun _ _ => true

/-- The inner loop yielding one repository's resolved targets
(resolver.go lines 101-105): stops when the consumer does. -/
def pushTargets (c : Consumer) :
    List ImageTarget → List (ImageTarget × Option GoError) →
      List (ImageTarget × Option GoError) × Bool
  | [], acc => (acc, false)
  | t :: ts, acc =>
    let p := (t, none)
    if c acc p then pushTargets c ts (acc ++ [p]) else (acc ++ [p], true)

/-- The generator body of `AllLatestImages`: `acc` is the list of items
yielded so far.  A repository-list error is yielded and the generator
returns regardless of the consumer's answer (the code returns in both
branches); a repository-scan error is yielded and iteration continues
with the next repository; non-Docker repositories are skipped. -/
def allLatestImagesLoop (env : ResolverEnv) (c : Consumer) :
    List (Except GoError Repository) → List (ImageTarget × Option GoError) →
      List (ImageTarget × Option GoError)
  | [], acc => acc
  | .error e :: _, acc =>
    acc ++ [(ImageTarget.empty, some (.wrap ("failed to list repositories").data e))]
  | .ok repo :: rest, acc =>
    if repo.Format ≠ RepoFormat.DOCKER then allLatestImagesLoop env c rest acc
    else
      match scanRepository env repo.Name with
      | .error e =>
        let p := (ImageTarget.empty,
          some (GoError.wrap (("failed to scan repo ").data ++ repo.Name) e))
        if c acc p then allLatestImagesLoop env c rest (acc ++ [p]) else acc ++ [p]
      | .ok targets =>
        match pushTargets c targets acc with
        | (acc2, true) => acc2
        | (acc2, false) => allLatestImagesLoop env c rest acc2

/-- Embedding of `AllLatestImages` (resolver.go lines 64-108): the items
the sequence yields to consumer `c`. -/
def AllLatestImages (env : ResolverEnv) (c : Consumer) :
    List (ImageTarget × Option GoError) :=
  allLatestImagesLoop env c env.repoStream []

/-! ## Scan orchestrator (`Scanner.Scan`, scanner.go lines 176-236)

The analyzer goroutines only append to the mutex-guarded collector; the
claims about the collector's final contents and the export/return
behaviour are order-insensitive, so the dispatch is modelled by the
deterministic schedule in which each analysis completes before the next
target is taken from the resolver stream.  The exporter is modelled by
the outcome it returns and by recording the list of collections it is
called with. -/

/-- Severity is a string type in the source (`schemas.Severity`). -/
abbrev Severity := Str

/-- Embedding of `schemas.Vulnerability`.  `CVSSScore` is a `float32` in
the source; no modelled code computes with it, so it is carried as an
opaque integer code. -/
structure Vulnerability where
  ID : Str
  Severity : Severity
  PackageName : Str
  InstalledVersion : Str
  FixedVersion : Str
  Description : Str
  CVSSScore : Int
  URLs : List Str
deriving Repr, DecidableEq

/-- Embedding of `schemas.VulnerabilitySummary` (the severity-count map
is modelled as an association list). -/
structure VulnerabilitySummary where
  TotalCount : Int
  CountBySeverity : List (Severity × Int)
  FixableCount : Int
deriving Repr, DecidableEq

/-- Embedding of `schemas.AnalyzeResult` (`ScanTime` modelled as an
integer instant). -/
structure AnalyzeResult where
  Artifact : ArtifactReference
  ScanTime : Int
  Vulnerabilities : List Vulnerability
  Summary : VulnerabilitySummary
deriving Repr, DecidableEq

/-- Embedding of `AnalyzeRequest` as built by `analyzeTarget`. -/
structure AnalyzeRequest where
  Artifact : ArtifactReference
  Location : Str
  MinSeverity : Severity
  FixableOnly : Bool
deriving Repr, DecidableEq

/-- Environment of `Scan`: the resolver's yielded sequence (abstracting
`AllLatestImages`), the analyzer collaborator and the exporter
collaborator's outcome. -/
structure ScanEnv where
  resolved : List (ImageTarget × Option GoError)
  analyze : AnalyzeRequest → Except GoError AnalyzeResult
  exportOutcome : List AnalyzeResult → Option GoError

/-- Model of `errors.Join(c.errs, err)` on the collector's error field (`nil`
joined with `err` is `err`). -/
def joinErr : Option GoError → GoError → GoError
  | none, e => e
  | some a, e => .join a e

/-- The resolve/analyze phase of `Scan` (scanner.go lines 190-212 plus
`analyzeTarget`): the collector's final `(results, errs)`.  A resolver
error is recorded and the loop continues; an analysis failure records a
wrapped error; a success appends the result. -/
def runCollector (env : ScanEnv) (minSeverity : Severity) (fixableOnly : Bool) :
    List AnalyzeResult × Option GoError :=
  env.resolved.foldl
    (fun st p =>
      match p.2 with
      | some e =>
        (st.1, some (joinErr st.2 (.wrap ("resolving image stream").data e)))
      | none =>
        match env.analyze ⟨p.1.Artifact, p.1.Location, minSeverity, fixableOnly⟩ with
        | .ok r => (st.1 ++ [r], st.2)
        | .error e =>
          (st.1, some (joinErr st.2 (.wrap (("analyzing ").data ++ p.1.URI) e))))
    ([], none)

/-- Embedding of `Scanner.Scan` (scanner.go lines 176-236): returns the
error `Scan` returns together with the list of collections `Export` was
called with (one entry per call).  Export happens only for a non-empty
results collection and before the partial-error aggregate is reported;
an export failure is returned immediately. -/
def Scan (env : ScanEnv) (minSeverity : Severity) (fixableOnly : Bool) :
    Option GoError × List (List AnalyzeResult) :=
  let col := runCollector env minSeverity fixableOnly
  if col.1 ≠ [] then
    match env.exportOutcome col.1 with
    | some e => (some (.wrap ("failed to export results").data e), [col.1])
    | none =>
      match col.2 with
      | some a =>
        (some (.wrap ("scan completed with partial errors").data a), [col.1])
      | none => (none, [col.1])
  else
    match col.2 with
    | some a => (some (.wrap ("scan completed with partial errors").data a), [])
    | none => (none, [])

/-- The `grouped` map of a finished listing loop (empty on failure);
used to state the per-image candidate bound. -/
def groupedOf : Except GoError scanState → List (Str × List candidateImage)
  | .ok st => st.grouped
  | .error _ => []

/-! ## Concrete fixtures used by witnesses and counterexamples -/

/-- A syntactically valid digest-qualified GAR URI. -/
def goodDigestUri : Str :=
  ("us-central1-docker.pkg.dev/my-project/my-repo/app@sha256:e3b0c44298fc1c149afbf4c8996fb92427ae41e4649b934ca495991b7852b855").data

/-- A fully-qualified repository resource name. -/
def wRepoName : Str :=
  ("projects/my-project/locations/us-central1/repositories/my-repo").data

/-- Resolver environment whose repository stream fails after one Docker
repository and whose image listings fail immediately. -/
def c2Env : ResolverEnv :=
  ⟨[.ok ⟨wRepoName, .DOCKER⟩, .error (.msg ("listing boom").data)],
   fun _ => [.error (.msg ("image boom").data)]⟩

/-- Resolver environment whose image listing contains one malformed URI
followed by one well-formed digest-qualified entry. -/
def c7Env : ResolverEnv :=
  ⟨[], fun _ => [.ok ⟨("bad").data, [], 1⟩,
                 .ok ⟨goodDigestUri, [("v1").data], 2⟩]⟩

/-- The same listing with only the well-formed entry. -/
def c7EnvGood : ResolverEnv :=
  ⟨[], fun _ => [.ok ⟨goodDigestUri, [("v1").data], 2⟩]⟩

/-- Resolver environment whose image listing holds the malformed entry
after a well-formed one (mid-stream parse failure). -/
def c7EnvLate : ResolverEnv :=
  ⟨[], fun _ => [.ok ⟨goodDigestUri, [("v1").data], 2⟩,
                 .ok ⟨("bad").data, [], 1⟩]⟩

/-- Resolver environment with one Docker repository whose listing holds
a digest-qualified entry and a digest-less (tag-only) entry. -/
def c8Env : ResolverEnv :=
  ⟨[.ok ⟨wRepoName, .DOCKER⟩],
   fun _ => [.ok ⟨goodDigestUri, [("v1").data], 2⟩,
             .ok ⟨("us-central1-docker.pkg.dev/my-project/my-repo/nginx:v1.2.3").data, [], 9⟩]⟩

/-- Seven listing entries for the same image name. -/
def c6Stream : List (Except GoError DockerImage) :=
  [.ok ⟨goodDigestUri, [], 1⟩, .ok ⟨goodDigestUri, [], 2⟩,
   .ok ⟨goodDigestUri, [], 3⟩, .ok ⟨goodDigestUri, [], 4⟩,
   .ok ⟨goodDigestUri, [], 5⟩, .ok ⟨goodDigestUri, [], 6⟩,
   .ok ⟨goodDigestUri, [], 7⟩]

/-- An empty analysis result fixture. -/
def c5Res : AnalyzeResult := ⟨⟨[], [], [], [], none, none⟩, 0, [], ⟨0, [], 0⟩⟩

/-- Scan environment whose one target analyzes successfully but whose
exporter fails. -/
def c5Env : ScanEnv :=
  ⟨[(ImageTarget.empty, none)], fun _ => .ok c5Res,
   fun _ => some (.msg ("export boom").data)⟩

/-- Scan environment whose one target analyzes successfully and whose
exporter succeeds. -/
def c5EnvOk : ScanEnv :=
  ⟨[(ImageTarget.empty, none)], fun _ => .ok c5Res, fun _ => none⟩

/-! ## Selection policy lemmas -/

theorem selectLoop_mem (l : List candidateImage) (b : candidateImage) :
    selectLoop l b = b ∨ selectLoop l b ∈ l := by
  induction l generalizing b with
  | nil => exact Or.inl rfl
  | cons c rest ih =>
    by_cases hc : hasLatest c = true
    · right; simp [selectLoop, hc]
    · by_cases ht : b.UpdateTime < c.UpdateTime
      · have hr : selectLoop (c :: rest) b = selectLoop rest c := by
          simp [selectLoop, hc, ht]
        rw [hr]
        rcases ih c with h | h
        · right; rw [h]; exact List.mem_cons_self c rest
        · right; exact List.mem_cons_of_mem c h
      · have hr : selectLoop (c :: rest) b = selectLoop rest b := by
          simp [selectLoop, hc, ht]
        rw [hr]
        rcases ih b with h | h
        · left; exact h
        · right; exact List.mem_cons_of_mem c h

theorem selectLoop_find_latest (l : List candidateImage) (b c : candidateImage)
    (h : l.find? hasLatest = some c) : selectLoop l b = c := by
  induction l generalizing b with
  | nil => simp [List.find?] at h
  | cons d rest ih =>
    by_cases hd : hasLatest d = true
    · rw [List.find?_cons_of_pos _ hd] at h
      simp only [Option.some.injEq] at h
      subst h
      simp [selectLoop, hd]
    · rw [List.find?_cons_of_neg _ hd] at h
      simp only [selectLoop, hd, if_false]
      by_cases ht : b.UpdateTime < d.UpdateTime
      · simp only [ht, if_true]; exact ih d h
      · simp only [ht, if_false]; exact ih b h

theorem selectLoop_no_latest (l : List candidateImage) (b : candidateImage)
    (hl : ∀ c ∈ l, hasLatest c = false) :
    (selectLoop l b = b ∧ ∀ c ∈ l, c.UpdateTime ≤ b.UpdateTime) ∨
    (∃ pre suf, l = pre ++ selectLoop l b :: suf ∧
      b.UpdateTime < (selectLoop l b).UpdateTime ∧
      (∀ d ∈ pre, d.UpdateTime < (selectLoop l b).UpdateTime) ∧
      (∀ d ∈ suf, d.UpdateTime ≤ (selectLoop l b).UpdateTime)) := by
  induction l generalizing b with
  | nil => exact Or.inl ⟨rfl, by simp⟩
  | cons c rest ih =>
    have hc : hasLatest c = false := hl c (List.mem_cons_self c rest)
    have hrest : ∀ d ∈ rest, hasLatest d = false :=
      fun d hd => hl d (List.mem_cons_of_mem c hd)
    simp only [selectLoop, hc, Bool.false_eq_true, if_false]
    by_cases ht : b.UpdateTime < c.UpdateTime
    · simp only [ht, if_true]
      rcases ih c hrest with ⟨heq, hle⟩ | ⟨pre, suf, hsplit, hgt, hpre, hsuf⟩
      · refine Or.inr ⟨[], rest, ?_, ?_, by simp, ?_⟩
        · simp [heq]
        · rw [heq]; exact ht
        · intro d hd; rw [heq]; exact hle d hd
      · refine Or.inr ⟨c :: pre, suf, ?_, ?_, ?_, hsuf⟩
        · rw [List.cons_append]; exact congrArg (List.cons c) hsplit
        · exact lt_trans ht hgt
        · intro d hd
          rcases List.mem_cons.mp hd with rfl | hd'
          · exact hgt
          · exact hpre d hd'
    · simp only [ht, if_false]
      have hcb : c.UpdateTime ≤ b.UpdateTime := le_of_not_lt ht
      rcases ih b hrest with ⟨heq, hle⟩ | ⟨pre, suf, hsplit, hgt, hpre, hsuf⟩
      · refine Or.inl ⟨heq, ?_⟩
        intro d hd
        rcases List.mem_cons.mp hd with rfl | hd'
        · exact hcb
        · exact hle d hd'
      · refine Or.inr ⟨c :: pre, suf, ?_, hgt, ?_, hsuf⟩
        · rw [List.cons_append]; exact congrArg (List.cons c) hsplit
        intro d hd
        rcases List.mem_cons.mp hd with rfl | hd'
        · exact lt_of_le_of_lt hcb hgt
        · exact hpre d hd'

/-- C1: `selectBestDigest` returns the zero sentinel on `[]`; a singleton
is returned unchanged; the first candidate (in scan order) tagged
`"latest"` is returned immediately; otherwise the returned candidate is
the earliest-positioned candidate with the maximum `UpdateTime` (all
candidates before it are strictly older, all candidates are no newer). -/
theorem c1_selectBestDigest_policy (name loc repo : Str) (cs : List candidateImage) :
    (selectBestDigest name loc repo [] = candidateImage.zero) ∧
    (∀ x, selectBestDigest name loc repo [x] = x) ∧
    (∀ c, cs.find? hasLatest = some c → selectBestDigest name loc repo cs = c) ∧
    (cs ≠ [] → cs.find? hasLatest = none →
      ∃ pre suf, cs = pre ++ selectBestDigest name loc repo cs :: suf ∧
        (∀ d ∈ pre, d.UpdateTime < (selectBestDigest name loc repo cs).UpdateTime) ∧
        (∀ d ∈ cs, d.UpdateTime ≤ (selectBestDigest name loc repo cs).UpdateTime)) := by
  refine ⟨rfl, ?_, ?_, ?_⟩
  · intro x
    by_cases hx : hasLatest x = true <;>
      simp [selectBestDigest, selectLoop, hx]
  · intro c hc
    match cs with
    | [] => simp [List.find?] at hc
    | c0 :: rest => exact selectLoop_find_latest _ c0 c hc
  · intro hne hnone
    have hall : ∀ c ∈ cs, hasLatest c = false := by
      intro c hc
      have := List.find?_eq_none.mp hnone c hc
      simpa using this
    match cs with
    | c0 :: rest =>
      have hc0 : hasLatest c0 = false := hall c0 (List.mem_cons_self c0 rest)
      have hrest : ∀ d ∈ rest, hasLatest d = false :=
        fun d hd => hall d (List.mem_cons_of_mem c0 hd)
      have hred : selectBestDigest name loc repo (c0 :: rest) = selectLoop rest c0 := by
        simp [selectBestDigest, selectLoop, hc0]
      rw [hred]
      rcases selectLoop_no_latest rest c0 hrest with ⟨heq, hle⟩ | ⟨pre, suf, hsplit, hgt, hpre, hsuf⟩
      · refine ⟨[], rest, by simp [heq], by simp, ?_⟩
        intro d hd
        rcases List.mem_cons.mp hd with rfl | hd'
        · rw [heq]
        · rw [heq]; exact hle d hd'
      · refine ⟨c0 :: pre, suf, ?_, ?_, ?_⟩
        · rw [List.cons_append]; exact congrArg (List.cons c0) hsplit
        · intro d hd
          rcases List.mem_cons.mp hd with rfl | hd'
          · exact hgt
          · exact hpre d hd'
        · intro d hd
          rcases List.mem_cons.mp hd with rfl | hd'
          · exact le_of_lt hgt
          · rw [hsplit] at hd'
            rcases List.mem_append.mp hd' with h | h
            · exact le_of_lt (hpre d h)
            · rcases List.mem_cons.mp h with rfl | h'
              · exact le_refl _
              · exact hsuf d h'

/-- Witness for C1 at the spec's own example: a `latest`-tagged candidate
that is older than a differently-tagged one still wins. -/
theorem c1_witness :
    ([⟨("A").data, [latestTag, ("v1").data], 1, []⟩,
      ⟨("B").data, [("v2").data], 5, []⟩] :
        List candidateImage).find? hasLatest =
      some ⟨("A").data, [latestTag, ("v1").data], 1, []⟩ ∧
    selectBestDigest [] [] []
      [⟨("A").data, [latestTag, ("v1").data], 1, []⟩,
       ⟨("B").data, [("v2").data], 5, []⟩] =
      ⟨("A").data, [latestTag, ("v1").data], 1, []⟩ := by
  refine ⟨by decide, ?_⟩
  exact (c1_selectBestDigest_policy [] [] [] _).2.2.1 _ (by decide)

/-! ## String decomposition lemmas -/

theorem splitFirst_append (sep : Char) (a b : Str) (h : sep ∉ a) :
    splitFirst sep (a ++ sep :: b) = some (a, b) := by
  induction a with
  | nil => simp [splitFirst]
  | cons c cs ih =>
    have hc : ¬ c = sep := fun hc => h (hc ▸ List.mem_cons_self c cs)
    have h' : sep ∉ cs := fun hm => h (List.mem_cons_of_mem c hm)
    simp [splitFirst, hc, ih h']

theorem splitFirst_eq_some (sep : Char) (l a b : Str)
    (h : splitFirst sep l = some (a, b)) : l = a ++ sep :: b ∧ sep ∉ a := by
  induction l generalizing a b with
  | nil => simp [splitFirst] at h
  | cons c cs ih =>
    by_cases hc : c = sep
    · subst hc
      simp only [splitFirst, if_true] at h
      injection h with h'
      injection h' with ha hb
      subst ha; subst hb
      exact ⟨rfl, List.not_mem_nil _⟩
    · simp only [splitFirst, if_neg hc, Option.map_eq_some'] at h
      obtain ⟨⟨a', b'⟩, hs, heq⟩ := h
      simp only [Prod.mk.injEq] at heq
      obtain ⟨ha, hb⟩ := heq
      subst hb
      obtain ⟨hl, hmem⟩ := ih a' b' hs
      subst hl
      refine ⟨by rw [← ha, List.cons_append], ?_⟩
      rw [← ha]
      intro hm
      rcases List.mem_cons.mp hm with h1 | h1
      · exact hc h1.symm
      · exact hmem h1

theorem takeWhile_split {p : Char → Bool} (a b : Str)
    (ha : ∀ c ∈ a, p c = true)
    (hb : ∀ c bs, b = c :: bs → p c = false) :
    (a ++ b).takeWhile p = a ∧ (a ++ b).dropWhile p = b := by
  induction a with
  | nil =>
    simp only [List.nil_append]
    cases b with
    | nil => simp
    | cons c bs =>
      have hc := hb c bs rfl
      constructor
      · simp [List.takeWhile_cons, hc]
      · simp [List.dropWhile_cons, hc]
  | cons c cs ih =>
    have hc := ha c (List.mem_cons_self c cs)
    have ih' := ih (fun d hd => ha d (List.mem_cons_of_mem c hd))
    constructor
    · simp [List.takeWhile_cons, hc, ih'.1]
    · simp [List.dropWhile_cons, hc, ih'.2]

theorem takeWhile_all {p : Char → Bool} (a : Str) (ha : ∀ c ∈ a, p c = true) :
    a.takeWhile p = a ∧ a.dropWhile p = [] := by
  have := takeWhile_split a [] ha (fun c bs h => nomatch h)
  simpa using this

theorem matchesHost_no_slash {h : Str} (hm : matchesHost h = true) : '/' ∉ h := by
  intro hmem
  simp only [matchesHost, Bool.and_eq_true, decide_eq_true_eq, beq_iff_eq,
    List.all_eq_true] at hm
  obtain ⟨⟨hlen, hdrop⟩, hall⟩ := hm
  rw [← List.take_append_drop (h.length - 15) h] at hmem
  rcases List.mem_append.mp hmem with hc | hc
  · exact absurd (hall _ hc) (by decide)
  · rw [hdrop] at hc
    exact absurd hc (by decide)

/-- Soundness of the parser on rendered references: any reference whose
fields lie in the languages of the corresponding regex groups is
recovered exactly by `ParseArtifactURI` from its rendered string, for
every combination of tag and digest. -/
theorem ParseArtifactURI_render (ref : ArtifactReference)
    (hhost : matchesHost ref.Host = true)
    (hpne : ref.ProjectID ≠ []) (hps : '/' ∉ ref.ProjectID)
    (hrne : ref.RepositoryID ≠ []) (hrs : '/' ∉ ref.RepositoryID)
    (hine : ref.ImageName ≠ [])
    (hic : ∀ c ∈ ref.ImageName, c ≠ ':' ∧ c ≠ '@')
    (htag : ∀ t, ref.Tag = some t → t ≠ [] ∧ '@' ∉ t)
    (hdig : ∀ d, ref.Digest = some d → matchesDigest d = true) :
    ParseArtifactURI ref.render = .ok ref := by
  obtain ⟨H, P, R, I, T, D⟩ := ref
  simp only at hhost hpne hps hrne hrs hine hic htag hdig
  have hIimg : ∀ c ∈ I, isImageChar c = true := by
    intro c hcI
    obtain ⟨h1, h2⟩ := hic c hcI
    simp [isImageChar, h1, h2]
  -- the three `/`-separated prefixes
  have hH := matchesHost_no_slash hhost
  cases T with
  | none =>
    cases D with
    | none =>
      have hr : ArtifactReference.render ⟨H, P, R, I, none, none⟩ =
          H ++ '/' :: (P ++ '/' :: (R ++ '/' :: I)) := by
        simp [ArtifactReference.render]
      have htw := takeWhile_all I hIimg
      simp only [ParseArtifactURI, hr, splitFirst_append '/' H _ hH,
        splitFirst_append '/' P _ hps, splitFirst_append '/' R _ hrs,
        hhost, if_true, if_neg hpne, if_neg hrne, htw.1, htw.2, if_neg hine]
    | some d =>
      have hr : ArtifactReference.render ⟨H, P, R, I, none, some d⟩ =
          H ++ '/' :: (P ++ '/' :: (R ++ '/' :: (I ++ '@' :: d))) := by
        simp [ArtifactReference.render]
      have htw := takeWhile_split I ('@' :: d) hIimg
        (by intro c bs h; cases h; decide)
      simp only [ParseArtifactURI, hr, splitFirst_append '/' H _ hH,
        splitFirst_append '/' P _ hps, splitFirst_append '/' R _ hrs,
        hhost, if_true, if_neg hpne, if_neg hrne, htw.1, htw.2, if_neg hine,
        hdig d rfl]
      rw [if_neg (show ¬('@' = ':') by decide)]
  | some t =>
    obtain ⟨htne, htat⟩ := htag t rfl
    have htOK : ∀ c ∈ t, (fun x => !(x == '@')) c = true := by
      intro c hct
      have : c ≠ '@' := fun h => htat (h ▸ hct)
      simp [this]
    cases D with
    | none =>
      have hr : ArtifactReference.render ⟨H, P, R, I, some t, none⟩ =
          H ++ '/' :: (P ++ '/' :: (R ++ '/' :: (I ++ ':' :: t))) := by
        simp [ArtifactReference.render]
      have htw := takeWhile_split I (':' :: t) hIimg
        (by intro c bs h; cases h; decide)
      have htw2 := takeWhile_all t htOK
      simp only [ParseArtifactURI, hr, splitFirst_append '/' H _ hH,
        splitFirst_append '/' P _ hps, splitFirst_append '/' R _ hrs,
        hhost, if_true, if_neg hpne, if_neg hrne, htw.1, htw.2, if_neg hine,
        htw2.1, htw2.2, if_neg htne]
    | some d =>
      have hr : ArtifactReference.render ⟨H, P, R, I, some t, some d⟩ =
          H ++ '/' :: (P ++ '/' :: (R ++ '/' :: (I ++ ':' :: (t ++ '@' :: d)))) := by
        simp [ArtifactReference.render]
      have htw := takeWhile_split I (':' :: (t ++ '@' :: d)) hIimg
        (by intro c bs h; cases h; decide)
      have htw2 := takeWhile_split t ('@' :: d) htOK
        (by intro c bs h; cases h; decide)
      simp only [ParseArtifactURI, hr, splitFirst_append '/' H _ hH,
        splitFirst_append '/' P _ hps, splitFirst_append '/' R _ hrs,
        hhost, if_true, if_neg hpne, if_neg hrne, htw.1, htw.2, if_neg hine,
        htw2.1, htw2.2, if_neg htne, hdig d rfl]

/-- C3: for every `ArtifactReference` whose fields are syntactically
valid for the grammar of `compiledGarRegex` (host matches the
registry-host pattern, project and repository are nonempty and
slash-free, image name is nonempty and free of `:` and `@`, a present
tag is nonempty and free of `@`, a present digest matches
`sha256:` + 64 hex) and which has exactly one of tag or digest set,
`ParseArtifactURI` applied to the rendered string returns the reference
unchanged. -/
theorem c3_parse_render_roundtrip (ref : ArtifactReference)
    (hhost : matchesHost ref.Host = true)
    (hpne : ref.ProjectID ≠ []) (hps : '/' ∉ ref.ProjectID)
    (hrne : ref.RepositoryID ≠ []) (hrs : '/' ∉ ref.RepositoryID)
    (hine : ref.ImageName ≠ [])
    (hic : ∀ c ∈ ref.ImageName, c ≠ ':' ∧ c ≠ '@')
    (htag : ∀ t, ref.Tag = some t → t ≠ [] ∧ '@' ∉ t)
    (hdig : ∀ d, ref.Digest = some d → matchesDigest d = true)
    (hone : (ref.Tag.isSome = true ∧ ref.Digest = none) ∨
      (ref.Tag = none ∧ ref.Digest.isSome = true)) :
    ParseArtifactURI ref.render = .ok ref :=
  ParseArtifactURI_render ref hhost hpne hps hrne hrs hine hic htag hdig

/-- Witness for C3 at a tag-only reference. -/
theorem c3_witness :
    ParseArtifactURI
        (ArtifactReference.render
          ⟨("asia-northeast1-docker.pkg.dev").data, ("prod").data,
           ("docker").data, ("nginx").data, some ("v1.2.3").data, none⟩) =
      .ok ⟨("asia-northeast1-docker.pkg.dev").data, ("prod").data,
           ("docker").data, ("nginx").data, some ("v1.2.3").data, none⟩ := by
  refine c3_parse_render_roundtrip _ (by decide) (by decide) (by decide)
    (by decide) (by decide) (by decide) (by decide) ?_ ?_ (by decide)
  · intro t ht
    cases ht
    exact ⟨by decide, by decide⟩
  · intro d hd
    cases hd

/-- C4 counterexample: an input where an `@`-qualified digest was
intended but the `@` separator is missing (the Go test's valid
digest-qualified URI with its `@` deleted) is not rejected: it parses
successfully, with the digest text absorbed into the image name and
tag. -/
theorem c4_counterexample :
    ParseArtifactURI
        (("us-central1-docker.pkg.dev/my-project/my-repo/my-image" ++
          "sha256:e3b0c44298fc1c149afbf4c8996fb92427ae41e4649b934ca495991b7852b855").data) =
      .ok ⟨("us-central1-docker.pkg.dev").data, ("my-project").data,
           ("my-repo").data, ("my-imagesha256").data,
           some ("e3b0c44298fc1c149afbf4c8996fb92427ae41e4649b934ca495991b7852b855").data,
           none⟩ := by
  decide

/-- C4 (amended): `ParseArtifactURI` accepts digest-only, tag-only and
tag+digest forms (including multi-segment image paths, since the image
group admits `/`), and errors on every input with fewer than the minimum
path segments and on every `@`-digest whose 7-character prefix differs
from `sha256:`; but when the `@` separator is missing, the digest text
is absorbed into the image name and tag and the parse succeeds without a
digest rather than erroring. -/
theorem c4_parse_accept_reject
    (ref : ArtifactReference) (uri h p r name d hex : Str) :
    (matchesHost ref.Host = true → ref.ProjectID ≠ [] → '/' ∉ ref.ProjectID →
      ref.RepositoryID ≠ [] → '/' ∉ ref.RepositoryID → ref.ImageName ≠ [] →
      (∀ c ∈ ref.ImageName, c ≠ ':' ∧ c ≠ '@') →
      (∀ t, ref.Tag = some t → t ≠ [] ∧ '@' ∉ t) →
      (∀ dg, ref.Digest = some dg → matchesDigest dg = true) →
      ParseArtifactURI ref.render = .ok ref) ∧
    (uri.count '/' < 3 → ParseArtifactURI uri = .error (parseFailure uri)) ∧
    (matchesHost h = true → p ≠ [] → '/' ∉ p → r ≠ [] → '/' ∉ r →
      name ≠ [] → (∀ c ∈ name, c ≠ ':' ∧ c ≠ '@') →
      d.take 7 ≠ sha256Colon →
      ParseArtifactURI (h ++ '/' :: (p ++ '/' :: (r ++ '/' :: (name ++ '@' :: d)))) =
        .error (parseFailure (h ++ '/' :: (p ++ '/' :: (r ++ '/' :: (name ++ '@' :: d)))))) ∧
    (matchesHost h = true → p ≠ [] → '/' ∉ p → r ≠ [] → '/' ∉ r →
      name ≠ [] → (∀ c ∈ name, c ≠ ':' ∧ c ≠ '@') →
      hex ≠ [] → '@' ∉ hex →
      ParseArtifactURI (h ++ '/' :: (p ++ '/' :: (r ++ '/' :: (name ++ sha256Colon ++ hex)))) =
        .ok ⟨h, p, r, name ++ ("sha256").data, some hex, none⟩) := by
  refine ⟨?_, ?_, ?_, ?_⟩
  · intro hhost hpne hps hrne hrs hine hic htag hdig
    exact ParseArtifactURI_render ref hhost hpne hps hrne hrs hine hic htag hdig
  · intro hcount
    cases hs1 : splitFirst '/' uri with
    | none => simp [ParseArtifactURI, hs1]
    | some pr1 =>
      obtain ⟨h1, r1⟩ := pr1
      obtain ⟨he1, hn1⟩ := splitFirst_eq_some '/' uri h1 r1 hs1
      have hc1 : uri.count '/' = r1.count '/' + 1 := by
        rw [he1, List.count_append, List.count_cons_self,
          List.count_eq_zero.mpr hn1]
        omega
      by_cases hmh : matchesHost h1 = true
      · cases hs2 : splitFirst '/' r1 with
        | none => simp [ParseArtifactURI, hs1, hs2, hmh]
        | some pr2 =>
          obtain ⟨p2, r2⟩ := pr2
          obtain ⟨he2, hn2⟩ := splitFirst_eq_some '/' r1 p2 r2 hs2
          have hc2 : r1.count '/' = r2.count '/' + 1 := by
            rw [he2, List.count_append, List.count_cons_self,
              List.count_eq_zero.mpr hn2]
            omega
          cases hs3 : splitFirst '/' r2 with
          | none =>
            by_cases hp2 : p2 = []
            · simp [ParseArtifactURI, hs1, hs2, hs3, hmh, hp2]
            · simp [ParseArtifactURI, hs1, hs2, hs3, hmh, hp2]
          | some pr3 =>
            obtain ⟨q3, r3⟩ := pr3
            obtain ⟨he3, hn3⟩ := splitFirst_eq_some '/' r2 q3 r3 hs3
            have hc3 : r2.count '/' = r3.count '/' + 1 := by
              rw [he3, List.count_append, List.count_cons_self,
                List.count_eq_zero.mpr hn3]
              omega
            omega
      · simp [ParseArtifactURI, hs1, hmh]
  · intro hhost hpne hps hrne hrs hine hic hd7
    have hIimg : ∀ c ∈ name, isImageChar c = true := by
      intro c hcI
      obtain ⟨h1, h2⟩ := hic c hcI
      simp [isImageChar, h1, h2]
    have htw := takeWhile_split name ('@' :: d) hIimg
      (by intro c bs hcb; cases hcb; decide)
    have hmd : matchesDigest d = false := by
      simp [matchesDigest, hd7]
    simp only [ParseArtifactURI, splitFirst_append '/' h _ (matchesHost_no_slash hhost),
      splitFirst_append '/' p _ hps, splitFirst_append '/' r _ hrs,
      hhost, if_true, if_neg hpne, if_neg hrne, htw.1, htw.2, if_neg hine, hmd]
    rw [if_neg (show ¬('@' = ':') by decide)]
    simp
  · intro hhost hpne hps hrne hrs hine hic hhexne hhexat
    have hIimg : ∀ c ∈ name ++ ("sha256").data, isImageChar c = true := by
      intro c hcI
      rcases List.mem_append.mp hcI with hcI | hcI
      · obtain ⟨h1, h2⟩ := hic c hcI
        simp [isImageChar, h1, h2]
      · fin_cases hcI <;> decide
    have hassoc : name ++ sha256Colon ++ hex =
        (name ++ ("sha256").data) ++ ':' :: hex := by
      show name ++ sha256Colon ++ hex = _
      rw [List.append_assoc, List.append_assoc]
      rfl
    have htw := takeWhile_split (name ++ ("sha256").data) (':' :: hex) hIimg
      (by intro c bs hcb; cases hcb; decide)
    have hhexOK : ∀ c ∈ hex, (fun x => !(x == '@')) c = true := by
      intro c hct
      have : c ≠ '@' := fun hq => hhexat (hq ▸ hct)
      simp [this]
    have htw2 := takeWhile_all hex hhexOK
    have hne2 : name ++ ("sha256").data ≠ [] := by
      intro hq
      exact hine (List.append_eq_nil.mp hq).1
    simp only [ParseArtifactURI, hassoc,
      splitFirst_append '/' h _ (matchesHost_no_slash hhost),
      splitFirst_append '/' p _ hps, splitFirst_append '/' r _ hrs,
      hhost, if_true, if_neg hpne, if_neg hrne, htw.1, htw.2, if_neg hne2,
      htw2.1, htw2.2, if_neg hhexne]

/-- Witness for C4 at the Go test vectors: the nested-namespace
digest-only URI parses; the insufficient-segments input and the
`md5:`-prefixed digest input are rejected; the `@`-less digest input
parses as a tag. -/
theorem c4_witness :
    ParseArtifactURI
        (ArtifactReference.render
          ⟨("us-central1-docker.pkg.dev").data, ("my-project").data,
           ("my-repo").data, ("namespace/my-image").data, none,
           some ("sha256:e3b0c44298fc1c149afbf4c8996fb92427ae41e4649b934ca495991b7852b855").data⟩) =
      .ok ⟨("us-central1-docker.pkg.dev").data, ("my-project").data,
           ("my-repo").data, ("namespace/my-image").data, none,
           some ("sha256:e3b0c44298fc1c149afbf4c8996fb92427ae41e4649b934ca495991b7852b855").data⟩ ∧
    ParseArtifactURI
        (("us-central1-docker.pkg.dev/project@" ++
          "sha256:e3b0c44298fc1c149afbf4c8996fb92427ae41e4649b934ca495991b7852b855").data) =
      .error (parseFailure
        (("us-central1-docker.pkg.dev/project@" ++
          "sha256:e3b0c44298fc1c149afbf4c8996fb92427ae41e4649b934ca495991b7852b855").data)) ∧
    ParseArtifactURI
        (("us-central1-docker.pkg.dev").data ++ '/' :: (("my-project").data ++
          '/' :: (("my-repo").data ++ '/' :: (("my-image").data ++ '@' :: ("md5:12345").data)))) =
      .error (parseFailure
        (("us-central1-docker.pkg.dev").data ++ '/' :: (("my-project").data ++
          '/' :: (("my-repo").data ++ '/' :: (("my-image").data ++ '@' :: ("md5:12345").data))))) ∧
    ParseArtifactURI
        (("us-central1-docker.pkg.dev").data ++ '/' :: (("my-project").data ++
          '/' :: (("my-repo").data ++ '/' :: (("my-image").data ++ sha256Colon ++
            ("e3b0c44298fc1c149afbf4c8996fb92427ae41e4649b934ca495991b7852b855").data)))) =
      .ok ⟨("us-central1-docker.pkg.dev").data, ("my-project").data,
           ("my-repo").data, (("my-image" ++ "sha256")).data,
           some ("e3b0c44298fc1c149afbf4c8996fb92427ae41e4649b934ca495991b7852b855").data,
           none⟩ := by
  refine ⟨?_, ?_, ?_, ?_⟩
  · refine (c4_parse_accept_reject _ [] [] [] [] [] [] []).1 (by decide) (by decide)
      (by decide) (by decide) (by decide) (by decide) (by decide) ?_ ?_
    · intro t ht
      cases ht
    · intro dg hdg
      cases hdg
      exact (by decide)
  · exact (c4_parse_accept_reject ⟨[], [], [], [], none, none⟩ _ [] [] [] [] [] []).2.1
      (by decide)
  · exact (c4_parse_accept_reject ⟨[], [], [], [], none, none⟩ []
      (("us-central1-docker.pkg.dev").data) (("my-project").data) (("my-repo").data)
      (("my-image").data) (("md5:12345").data) []).2.2.1
      (by decide) (by decide) (by decide) (by decide) (by decide) (by decide)
      (by decide) (by decide)
  · exact (c4_parse_accept_reject ⟨[], [], [], [], none, none⟩ []
      (("us-central1-docker.pkg.dev").data) (("my-project").data) (("my-repo").data)
      (("my-image").data) []
      (("e3b0c44298fc1c149afbf4c8996fb92427ae41e4649b934ca495991b7852b855").data)).2.2.2
      (by decide) (by decide) (by decide) (by decide) (by decide) (by decide)
      (by decide) (by decide) (by decide)

/-! ## C9: location/repository extraction -/

/-- C9 counterexample: the malformed resource name `a/b/c/d/e/f` (which
is not of the form `projects/.../locations/.../repositories/...`) does
not yield empty strings: the positional decode returns its 4th and 6th
segments. -/
theorem c9_counterexample :
    extractLocationAndRepository (("a/b/c/d/e/f").data) = (("d").data, ("f").data) ∧
    extractLocationAndRepository (("a/b/c/d/e/f").data) ≠ ([], []) := by
  exact ⟨by decide, by decide⟩

/-- C9 (amended): extraction from
`projects/p/locations/us-central1/repositories/r` returns
`("us-central1", "r")`; every input with fewer than six `/`-separated
segments yields `("", "")`; and every input with at least six segments
yields its 4th and 6th segments positionally, with no validation of the
literal labels and never an error (the function is total). -/
theorem c9_extract_positional (s : Str) :
    extractLocationAndRepository
        (("projects/p/locations/us-central1/repositories/r").data) =
      (("us-central1").data, ("r").data) ∧
    ((splitOnChar '/' s).length < 6 → extractLocationAndRepository s = ([], [])) ∧
    (∀ h6 : 6 ≤ (splitOnChar '/' s).length,
      extractLocationAndRepository s =
        ((splitOnChar '/' s).get ⟨3, by omega⟩, (splitOnChar '/' s).get ⟨5, by omega⟩)) := by
  refine ⟨by decide, ?_, ?_⟩
  · intro hlt
    rw [extractLocationAndRepository, dif_neg (by omega)]
  · intro h6
    rw [extractLocationAndRepository, dif_pos h6]

/-- Witness for C9: a one-segment input yields empty strings; a
six-segment input yields its 4th and 6th segments. -/
theorem c9_witness :
    extractLocationAndRepository (("invalid").data) = ([], []) ∧
    extractLocationAndRepository (("a/b/c/d/e/f").data) =
      ((splitOnChar '/' (("a/b/c/d/e/f").data)).get ⟨3, by decide⟩,
       (splitOnChar '/' (("a/b/c/d/e/f").data)).get ⟨5, by decide⟩) := by
  constructor
  · exact (c9_extract_positional (("invalid").data)).2.1 (by decide)
  · exact (c9_extract_positional (("a/b/c/d/e/f").data)).2.2 (by decide)

/-! ## C6: the per-image candidate cap -/

theorem assocGet_append_self (g : List (Str × List candidateImage))
    (k : Str) (c : candidateImage) :
    assocGet (assocAppend g k c) k = assocGet g k ++ [c] := by
  induction g with
  | nil => simp [assocAppend, assocGet]
  | cons p rest ih =>
    obtain ⟨k', cs⟩ := p
    by_cases hk : k' = k
    · subst hk
      simp [assocAppend, assocGet]
    · simp [assocAppend, assocGet, hk, ih]

theorem assocGet_append_other (g : List (Str × List candidateImage))
    (k n : Str) (c : candidateImage) (h : k ≠ n) :
    assocGet (assocAppend g k c) n = assocGet g n := by
  induction g with
  | nil => simp [assocAppend, assocGet, h]
  | cons p rest ih =>
    obtain ⟨k', cs⟩ := p
    by_cases hk : k' = k
    · subst hk
      simp [assocAppend, assocGet, h, ih]
    · simp only [assocAppend, if_neg hk]
      by_cases hn : k' = n
      · simp [assocGet, hn]
      · simp [assocGet, hn, ih]

/-- The listing-loop invariant: `counts` agrees with the group sizes and
never exceeds `MaxCandidates`. -/
theorem collectCandidates_counts (stream : List (Except GoError DockerImage))
    (st st' : scanState)
    (hinv : ∀ n, st.counts n = (assocGet st.grouped n).length ∧
      st.counts n ≤ MaxCandidates)
    (hok : collectCandidates st stream = .ok st') :
    ∀ n, st'.counts n = (assocGet st'.grouped n).length ∧
      st'.counts n ≤ MaxCandidates := by
  induction stream generalizing st with
  | nil =>
    simp only [collectCandidates] at hok
    injection hok with hok
    subst hok
    exact hinv
  | cons entry rest ih =>
    cases entry with
    | error e => simp [collectCandidates] at hok
    | ok img =>
      cases hp : ParseArtifactURI img.Uri with
      | error e => simp [collectCandidates, hp] at hok
      | ok ref =>
        cases hd : ref.Digest with
        | none =>
          simp only [collectCandidates, hp, hd] at hok
          exact ih st hinv hok
        | some digest =>
          simp only [collectCandidates, hp, hd] at hok
          by_cases hge : MaxCandidates ≤ st.counts ref.ImageName
          · rw [if_pos hge] at hok
            exact ih st hinv hok
          · rw [if_neg hge] at hok
            refine ih _ ?_ hok
            intro n
            by_cases hn : n = ref.ImageName
            · subst hn
              have h1 := (hinv ref.ImageName).1
              constructor
              · simp [assocGet_append_self, h1]
              · simp only [eq_self_iff_true, if_true]
                simp only [MaxCandidates] at hge ⊢
                omega
            · constructor
              · simp only [if_neg hn]
                rw [assocGet_append_other _ _ _ _ (fun h => hn h.symm)]
                exact (hinv n).1
              · simp only [if_neg hn]
                exact (hinv n).2

/-- C6: `MaxCandidates` is 5; after the listing loop every per-image
group holds at most `MaxCandidates` candidates; and an entry for an
image name whose count has reached `MaxCandidates` is dropped, leaving
the whole loop state unchanged (not merged). -/
theorem c6_candidate_cap (stream : List (Except GoError DockerImage))
    (st : scanState) (img : DockerImage)
    (rest : List (Except GoError DockerImage))
    (ref : ArtifactReference) (digest : Str) :
    MaxCandidates = 5 ∧
    (∀ n, (assocGet (groupedOf (collectCandidates scanState.init stream)) n).length ≤
      MaxCandidates) ∧
    (ParseArtifactURI img.Uri = .ok ref → ref.Digest = some digest →
      MaxCandidates ≤ st.counts ref.ImageName →
      collectCandidates st (.ok img :: rest) = collectCandidates st rest) := by
  refine ⟨rfl, ?_, ?_⟩
  · intro n
    cases hok : collectCandidates scanState.init stream with
    | error e => simp [groupedOf, assocGet]
    | ok st' =>
      have hinit : ∀ n, scanState.init.counts n =
          (assocGet scanState.init.grouped n).length ∧
          scanState.init.counts n ≤ MaxCandidates := by
        intro n
        simp [scanState.init, assocGet, MaxCandidates]
      have := collectCandidates_counts stream scanState.init st' hinit hok n
      simp only [groupedOf]
      omega
  · intro hp hd hge
    simp only [collectCandidates, hp, hd, if_pos hge]

/-- Witness for C6: seven same-name entries leave a group of exactly
five candidates, and a further entry for a name at the cap leaves the
loop state unchanged. -/
theorem c6_witness :
    (assocGet (groupedOf (collectCandidates scanState.init c6Stream))
        (("app").data)).length ≤ MaxCandidates ∧
    collectCandidates ⟨[], fun _ => 5⟩ [.ok ⟨goodDigestUri, [], 8⟩] =
      collectCandidates ⟨[], fun _ => 5⟩ [] := by
  constructor
  · exact (c6_candidate_cap c6Stream scanState.init ⟨[], [], 0⟩ []
      ⟨[], [], [], [], none, none⟩ []).2.1 (("app").data)
  · exact (c6_candidate_cap [] ⟨[], fun _ => 5⟩ ⟨goodDigestUri, [], 8⟩ []
      ⟨("us-central1-docker.pkg.dev").data, ("my-project").data, ("my-repo").data,
        ("app").data, none,
        some ("sha256:e3b0c44298fc1c149afbf4c8996fb92427ae41e4649b934ca495991b7852b855").data⟩
      (("sha256:e3b0c44298fc1c149afbf4c8996fb92427ae41e4649b934ca495991b7852b855").data)).2.2
      (by decide) rfl (by decide)

/-! ## C8: digest invariants of yielded targets -/

theorem selectBestDigest_mem (n l r : Str) (cs : List candidateImage)
    (h : cs ≠ []) : selectBestDigest n l r cs ∈ cs := by
  cases cs with
  | nil => exact absurd rfl h
  | cons c0 rest =>
    have hred : selectBestDigest n l r (c0 :: rest) = selectLoop (c0 :: rest) c0 := rfl
    rw [hred]
    rcases selectLoop_mem (c0 :: rest) c0 with h1 | h1
    · rw [h1]; exact List.mem_cons_self _ _
    · exact h1

theorem assocAppend_forall {P : candidateImage → Prop}
    (g : List (Str × List candidateImage)) (k : Str) (c0 : candidateImage)
    (hg : ∀ p ∈ g, ∀ c ∈ p.2, P c) (hc : P c0) :
    ∀ p ∈ assocAppend g k c0, ∀ c ∈ p.2, P c := by
  induction g with
  | nil =>
    intro p hp c hcp
    simp only [assocAppend, List.mem_singleton] at hp
    subst hp
    simp only [List.mem_singleton] at hcp
    subst hcp
    exact hc
  | cons q rest ih =>
    obtain ⟨k', cs⟩ := q
    by_cases hk : k' = k
    · subst hk
      intro p hp c hcp
      simp only [assocAppend, if_pos rfl] at hp
      rcases List.mem_cons.mp hp with rfl | hp'
      · rcases List.mem_append.mp hcp with hcl | hcl
        · exact hg (k', cs) (List.mem_cons_self _ _) c hcl
        · simp only [List.mem_singleton] at hcl
          subst hcl
          exact hc
      · exact hg p (List.mem_cons_of_mem _ hp') c hcp
    · intro p hp c hcp
      simp only [assocAppend, if_neg hk] at hp
      rcases List.mem_cons.mp hp with rfl | hp'
      · exact hg (k', cs) (List.mem_cons_self _ _) c hcp
      · exact ih (fun q hq => hg q (List.mem_cons_of_mem _ hq)) p hp' c hcp

/-- Every candidate retained by the listing loop records the digest its
URI parses to: the loop only inserts candidates built from a successful
parse with a present digest. -/
theorem collectCandidates_all {P : candidateImage → Prop}
    (hP : ∀ (img : DockerImage) (ref : ArtifactReference) (digest : Str),
      ParseArtifactURI img.Uri = .ok ref → ref.Digest = some digest →
      P ⟨digest, img.Tags, img.UpdateTime, img.Uri⟩)
    (stream : List (Except GoError DockerImage)) (st st' : scanState)
    (hst : ∀ p ∈ st.grouped, ∀ c ∈ p.2, P c)
    (hok : collectCandidates st stream = .ok st') :
    ∀ p ∈ st'.grouped, ∀ c ∈ p.2, P c := by
  induction stream generalizing st with
  | nil =>
    simp only [collectCandidates] at hok
    injection hok with hok
    subst hok
    exact hst
  | cons entry rest ih =>
    cases entry with
    | error e => simp [collectCandidates] at hok
    | ok img =>
      cases hp : ParseArtifactURI img.Uri with
      | error e => simp [collectCandidates, hp] at hok
      | ok ref =>
        cases hd : ref.Digest with
        | none =>
          simp only [collectCandidates, hp, hd] at hok
          exact ih st hst hok
        | some digest =>
          simp only [collectCandidates, hp, hd] at hok
          by_cases hge : MaxCandidates ≤ st.counts ref.ImageName
          · rw [if_pos hge] at hok
            exact ih st hst hok
          · rw [if_neg hge] at hok
            exact ih _ (assocAppend_forall _ _ _ hst (hP img ref digest hp hd)) hok

/-- Every target a successful `scanRepository` returns carries a
nonempty digest in its parsed artifact reference. -/
theorem scanRepository_target_digest (env : ResolverEnv) (rn : Str)
    (targets : List ImageTarget) (hok : scanRepository env rn = .ok targets) :
    ∀ t ∈ targets, ∃ d, t.Artifact.Digest = some d ∧ d ≠ [] := by
  cases hc : collectCandidates scanState.init (env.images rn) with
  | error e => simp [scanRepository, hc] at hok
  | ok st =>
    simp only [scanRepository, hc] at hok
    injection hok with hok
    subst hok
    intro t ht
    obtain ⟨l, hl, htl⟩ := List.mem_join.mp ht
    obtain ⟨p, hp, rfl⟩ := List.mem_map.mp hl
    have hinv : ∀ q ∈ st.grouped, ∀ c ∈ q.2,
        (∃ ref, ParseArtifactURI c.URI = .ok ref ∧ ref.Digest = some c.Digest) :=
      collectCandidates_all
        (fun img ref digest hpim hdg => ⟨ref, hpim, hdg⟩)
        _ _ _ (by simp [scanState.init]) hc
    simp only [emitGroup] at htl
    by_cases hbd :
        (selectBestDigest p.1 (extractLocationAndRepository rn).1
          (extractLocationAndRepository rn).2 p.2).Digest = []
    · rw [if_pos hbd] at htl
      simp at htl
    · rw [if_neg hbd] at htl
      cases hpe : ParseArtifactURI
          (selectBestDigest p.1 (extractLocationAndRepository rn).1
            (extractLocationAndRepository rn).2 p.2).URI with
      | error e =>
        rw [hpe] at htl
        simp at htl
      | ok artifactRef =>
        rw [hpe] at htl
        simp only [List.mem_singleton] at htl
        subst htl
        have hne : p.2 ≠ [] := by
          intro hq
          apply hbd
          rw [hq]
          rfl
        have hmem := selectBestDigest_mem p.1 (extractLocationAndRepository rn).1
          (extractLocationAndRepository rn).2 p.2 hne
        obtain ⟨ref, hpr, hdg⟩ := hinv p hp _ hmem
        rw [hpr] at hpe
        injection hpe with hpe
        subst hpe
        exact ⟨_, hdg, hbd⟩

theorem pushTargets_mem (c : Consumer) (ts : List ImageTarget)
    (acc : List (ImageTarget × Option GoError)) (x : ImageTarget × Option GoError)
    (h : x ∈ (pushTargets c ts acc).1) :
    x ∈ acc ∨ ∃ t ∈ ts, x = (t, none) := by
  induction ts generalizing acc with
  | nil => exact Or.inl h
  | cons t rest ih =>
    simp only [pushTargets] at h
    by_cases hc : c acc (t, none) = true
    · rw [if_pos hc] at h
      rcases ih (acc ++ [(t, none)]) h with h1 | h1
      · rcases List.mem_append.mp h1 with h2 | h2
        · exact Or.inl h2
        · simp only [List.mem_singleton] at h2
          exact Or.inr ⟨t, List.mem_cons_self _ _, h2⟩
      · obtain ⟨t', ht', hx⟩ := h1
        exact Or.inr ⟨t', List.mem_cons_of_mem _ ht', hx⟩
    · rw [if_neg hc] at h
      rcases List.mem_append.mp h with h2 | h2
      · exact Or.inl h2
      · simp only [List.mem_singleton] at h2
        exact Or.inr ⟨t, List.mem_cons_self _ _, h2⟩

/-- Everything the generator yields with a `nil` error either was in the
accumulator already or is a target some successful repository scan
returned. -/
theorem allLatestImagesLoop_nilErr {Q : ImageTarget → Prop}
    (env : ResolverEnv) (c : Consumer)
    (hscan : ∀ rn targets, scanRepository env rn = .ok targets → ∀ t ∈ targets, Q t) :
    ∀ (stream : List (Except GoError Repository))
      (acc : List (ImageTarget × Option GoError)),
      (∀ t, (t, (none : Option GoError)) ∈ acc → Q t) →
      ∀ t, (t, (none : Option GoError)) ∈ allLatestImagesLoop env c stream acc → Q t := by
  intro stream
  induction stream with
  | nil => intro acc hacc t ht; exact hacc t ht
  | cons entry rest ih =>
    intro acc hacc t ht
    cases entry with
    | error e =>
      simp only [allLatestImagesLoop] at ht
      rcases List.mem_append.mp ht with h1 | h1
      · exact hacc t h1
      · simp at h1
    | ok repo =>
      by_cases hf : repo.Format = RepoFormat.DOCKER
      · have hnn : ¬(repo.Format ≠ RepoFormat.DOCKER) := fun hq => hq hf
        cases hs : scanRepository env repo.Name with
        | error e =>
          simp only [allLatestImagesLoop, hs, if_neg hnn] at ht
          by_cases hcy : c acc (ImageTarget.empty,
              some (GoError.wrap (("failed to scan repo ").data ++ repo.Name) e)) = true
          · rw [if_pos hcy] at ht
            refine ih _ ?_ t ht
            intro t' ht'
            rcases List.mem_append.mp ht' with h1 | h1
            · exact hacc t' h1
            · simp at h1
          · rw [if_neg hcy] at ht
            rcases List.mem_append.mp ht with h1 | h1
            · exact hacc t h1
            · simp at h1
        | ok targets =>
          have hacc2 : ∀ t', (t', (none : Option GoError)) ∈
              (pushTargets c targets acc).1 → Q t' := by
            intro t' ht'
            rcases pushTargets_mem c targets acc _ ht' with h1 | h1
            · exact hacc t' h1
            · obtain ⟨t'', ht'', hx⟩ := h1
              injection hx with hx1 hx2
              rw [hx1]
              exact hscan repo.Name targets hs t'' ht''
          cases hpt : pushTargets c targets acc with
          | mk acc2 stopped =>
            have hacc2' : ∀ t', (t', (none : Option GoError)) ∈ acc2 → Q t' := by
              intro t' ht'
              exact hacc2 t' (by rw [hpt]; exact ht')
            cases stopped with
            | true =>
              simp only [allLatestImagesLoop, hs, if_neg hnn, hpt] at ht
              exact hacc2' t ht
            | false =>
              simp only [allLatestImagesLoop, hs, if_neg hnn, hpt] at ht
              exact ih acc2 hacc2' t ht
      · simp only [allLatestImagesLoop, if_pos hf] at ht
        exact ih acc hacc t ht

/-- C8: every `ImageTarget` yielded with a `nil` error by
`AllLatestImages` carries a present, nonempty digest in its parsed
artifact; a listed entry whose parsed reference lacks a digest is
skipped, leaving the loop state unchanged and causing no failure; and a
group whose selected best candidate has an empty digest emits no
target. -/
theorem c8_digest_invariant (env : ResolverEnv) (c : Consumer)
    (st : scanState) (img : DockerImage)
    (rest : List (Except GoError DockerImage)) (ref : ArtifactReference)
    (loc rep nm : Str) (cands : List candidateImage) :
    (∀ t, (t, (none : Option GoError)) ∈ AllLatestImages env c →
      ∃ d, t.Artifact.Digest = some d ∧ d ≠ []) ∧
    (ParseArtifactURI img.Uri = .ok ref → ref.Digest = none →
      collectCandidates st (.ok img :: rest) = collectCandidates st rest) ∧
    ((selectBestDigest nm loc rep cands).Digest = [] →
      emitGroup loc rep nm cands = []) := by
  refine ⟨?_, ?_, ?_⟩
  · intro t ht
    exact allLatestImagesLoop_nilErr env c
      (fun rn targets hok => scanRepository_target_digest env rn targets hok)
      env.repoStream [] (by simp) t ht
  · intro hp hd
    simp only [collectCandidates, hp, hd]
  · intro hbd
    simp only [emitGroup, if_pos hbd]

/-- Witness for C8: the digest-qualified listing entry of `c8Env` is
yielded as a target with a nonempty digest; the tag-only entry is
skipped by the listing loop; the empty group emits nothing. -/
theorem c8_witness :
    (∃ d,
      (⟨⟨("us-central1-docker.pkg.dev").data, ("my-project").data,
          ("my-repo").data, ("app").data, none,
          some ("sha256:e3b0c44298fc1c149afbf4c8996fb92427ae41e4649b934ca495991b7852b855").data⟩,
        goodDigestUri, ("us-central1").data⟩ : ImageTarget).Artifact.Digest =
          some d ∧ d ≠ []) ∧
    collectCandidates scanState.init
        [.ok ⟨("us-central1-docker.pkg.dev/my-project/my-repo/nginx:v1.2.3").data, [], 9⟩] =
      collectCandidates scanState.init [] ∧
    emitGroup [] [] (("app").data) [] = [] := by
  refine ⟨?_, ?_, ?_⟩
  · exact (c8_digest_invariant c8Env consumeAll scanState.init ⟨[], [], 0⟩ []
      ⟨[], [], [], [], none, none⟩ [] [] [] []).1 _ (by decide)
  · exact (c8_digest_invariant c8Env consumeAll scanState.init
      ⟨("us-central1-docker.pkg.dev/my-project/my-repo/nginx:v1.2.3").data, [], 9⟩ []
      ⟨("us-central1-docker.pkg.dev").data, ("my-project").data, ("my-repo").data,
        ("nginx").data, some ("v1.2.3").data, none⟩ [] [] [] []).2.1
      (by decide) rfl
  · exact (c8_digest_invariant c8Env consumeAll scanState.init ⟨[], [], 0⟩ []
      ⟨[], [], [], [], none, none⟩ [] [] (("app").data) []).2.2 rfl

/-! ## C7: parse failures during the listing loop -/

/-- C7 counterexample: with a malformed listing entry present
(`c7Env`), `scanRepository` fails for the whole repository and returns
no targets, although the remaining well-formed entry alone (`c7EnvGood`)
yields a target — the parse failure is escalated, not recovered. -/
theorem c7_counterexample :
    scanRepository c7Env wRepoName =
      .error (.wrap (("invalid image URI ").data ++ ("bad").data)
        (parseFailure (("bad").data))) ∧
    scanRepository c7EnvGood wRepoName =
      .ok [⟨⟨("us-central1-docker.pkg.dev").data, ("my-project").data,
            ("my-repo").data, ("app").data, none,
            some ("sha256:e3b0c44298fc1c149afbf4c8996fb92427ae41e4649b934ca495991b7852b855").data⟩,
           goodDigestUri, ("us-central1").data⟩] := by
  exact ⟨by decide, by decide⟩

/-- C7 (amended): a parse failure on a listed entry's URI aborts that
repository's scan with a wrapped error, at whatever point of the
listing loop the entry occurs (the step abort holds over arbitrary loop
state, and a listing-loop failure is the failure `scanRepository`
returns); the resolver yields that error as a per-repository failure
and continues with the remaining repositories; only the selection-phase
re-parse of the chosen best candidate's URI is recovered locally by
skipping that group. -/
theorem c7_parse_failure_escalates (env : ResolverEnv) (rn : Str)
    (st : scanState) (img : DockerImage)
    (rest : List (Except GoError DockerImage)) (e eAbort : GoError)
    (c : Consumer) (acc : List (ImageTarget × Option GoError))
    (repo : Repository) (rstream : List (Except GoError Repository))
    (loc rep nm : Str) (cands : List candidateImage) :
    (ParseArtifactURI img.Uri = .error e →
      collectCandidates st (.ok img :: rest) =
        .error (.wrap (("invalid image URI ").data ++ img.Uri) e)) ∧
    (collectCandidates scanState.init (env.images rn) = .error eAbort →
      scanRepository env rn = .error eAbort) ∧
    (repo.Format = RepoFormat.DOCKER → scanRepository env repo.Name = .error e →
      c acc (ImageTarget.empty,
        some (.wrap (("failed to scan repo ").data ++ repo.Name) e)) = true →
      allLatestImagesLoop env c (.ok repo :: rstream) acc =
        allLatestImagesLoop env c rstream
          (acc ++ [(ImageTarget.empty,
            some (.wrap (("failed to scan repo ").data ++ repo.Name) e))])) ∧
    ((selectBestDigest nm loc rep cands).Digest ≠ [] →
      ParseArtifactURI (selectBestDigest nm loc rep cands).URI = .error e →
      emitGroup loc rep nm cands = []) := by
  refine ⟨?_, ?_, ?_, ?_⟩
  · intro hp
    simp only [collectCandidates, hp]
  · intro habort
    simp only [scanRepository, habort]
  · intro hf hs hcy
    have hnn : ¬(repo.Format ≠ RepoFormat.DOCKER) := fun hq => hq hf
    simp only [allLatestImagesLoop, hs, if_neg hnn, if_pos hcy]
  · intro hbd hpe
    simp only [emitGroup, if_neg hbd, hpe]

/-- Witness for C7: a malformed entry aborts the listing loop from a
nonempty mid-loop state; `c7EnvLate`, whose malformed entry follows a
well-formed one, makes the whole repository scan fail; the resolver
wraps and yields the failure of `c7Env` then moves on; and a group
whose best candidate has an unparsable URI is skipped locally. -/
theorem c7_witness :
    collectCandidates
        ⟨[((("app").data), [⟨("d").data, [], 0, ("u").data⟩])], fun _ => 1⟩
        [.ok ⟨("bad").data, [], 1⟩, .ok ⟨goodDigestUri, [("v1").data], 2⟩] =
      .error (.wrap (("invalid image URI ").data ++ ("bad").data)
        (parseFailure (("bad").data))) ∧
    scanRepository c7EnvLate wRepoName =
      .error (.wrap (("invalid image URI ").data ++ ("bad").data)
        (parseFailure (("bad").data))) ∧
    allLatestImagesLoop c7Env consumeAll
        [.ok ⟨wRepoName, .DOCKER⟩] [] =
      allLatestImagesLoop c7Env consumeAll []
        [(ImageTarget.empty,
          some (.wrap (("failed to scan repo ").data ++ wRepoName)
            (.wrap (("invalid image URI ").data ++ ("bad").data)
              (parseFailure (("bad").data)))))] ∧
    emitGroup [] [] (("img").data) [⟨("d").data, [], 0, ("bad").data⟩] = [] := by
  refine ⟨?_, ?_, ?_, ?_⟩
  · exact (c7_parse_failure_escalates c7EnvLate wRepoName
      ⟨[((("app").data), [⟨("d").data, [], 0, ("u").data⟩])], fun _ => 1⟩
      ⟨("bad").data, [], 1⟩ [.ok ⟨goodDigestUri, [("v1").data], 2⟩]
      (parseFailure (("bad").data)) (parseFailure (("bad").data))
      consumeAll [] ⟨wRepoName, .DOCKER⟩ [] [] [] [] []).1 (by decide)
  · exact (c7_parse_failure_escalates c7EnvLate wRepoName scanState.init
      ⟨("bad").data, [], 1⟩ [] (parseFailure (("bad").data))
      (.wrap (("invalid image URI ").data ++ ("bad").data)
        (parseFailure (("bad").data)))
      consumeAll [] ⟨wRepoName, .DOCKER⟩ [] [] [] [] []).2.1 rfl
  · exact (c7_parse_failure_escalates c7Env wRepoName scanState.init
      ⟨("bad").data, [], 1⟩ [] (.wrap (("invalid image URI ").data ++ ("bad").data)
        (parseFailure (("bad").data))) (parseFailure (("bad").data))
      consumeAll [] ⟨wRepoName, .DOCKER⟩ [] [] [] [] []).2.2.1 rfl (by decide) rfl
  · exact (c7_parse_failure_escalates c7Env wRepoName scanState.init
      ⟨("bad").data, [], 1⟩ [] (parseFailure (("bad").data))
      (parseFailure (("bad").data)) consumeAll [] ⟨wRepoName, .DOCKER⟩ []
      [] [] (("img").data) [⟨("d").data, [], 0, ("bad").data⟩]).2.2.2
      (by decide) (by decide)

/-! ## C2: failure isolation and laziness of the resolver sequence -/

theorem pushTargets_extends (c : Consumer) (ts : List ImageTarget)
    (acc : List (ImageTarget × Option GoError)) :
    ∃ tail, (pushTargets c ts acc).1 = acc ++ tail := by
  induction ts generalizing acc with
  | nil => exact ⟨[], by simp [pushTargets]⟩
  | cons t rest ih =>
    simp only [pushTargets]
    by_cases hc : c acc (t, none) = true
    · rw [if_pos hc]
      obtain ⟨tl, htl⟩ := ih (acc ++ [(t, none)])
      exact ⟨(t, none) :: tl, by rw [htl]; simp⟩
    · rw [if_neg hc]
      exact ⟨[(t, none)], rfl⟩

theorem pushTargets_consumeAll (ts : List ImageTarget)
    (acc : List (ImageTarget × Option GoError)) :
    pushTargets consumeAll ts acc =
      (acc ++ ts.map (fun t => (t, none)), false) := by
  induction ts generalizing acc with
  | nil => simp [pushTargets]
  | cons t rest ih =>
    simp [pushTargets, consumeAll, ih (acc ++ [(t, none)])]

theorem pushTargets_no_stop (c : Consumer) (ts : List ImageTarget)
    (acc : List (ImageTarget × Option GoError))
    (h : (pushTargets c ts acc).2 = false) :
    (pushTargets c ts acc).1 = acc ++ ts.map (fun t => (t, none)) := by
  induction ts generalizing acc with
  | nil => simp [pushTargets]
  | cons t rest ih =>
    simp only [pushTargets] at h ⊢
    by_cases hc : c acc (t, none) = true
    · rw [if_pos hc] at h ⊢
      rw [ih (acc ++ [(t, none)]) h]
      simp
    · rw [if_neg hc] at h
      cases h

theorem pushTargets_stop_below (c : Consumer) (ts : List ImageTarget)
    (acc : List (ImageTarget × Option GoError)) :
    ∃ tail, acc ++ ts.map (fun t => (t, none)) = (pushTargets c ts acc).1 ++ tail := by
  induction ts generalizing acc with
  | nil => exact ⟨[], by simp [pushTargets]⟩
  | cons t rest ih =>
    simp only [pushTargets]
    by_cases hc : c acc (t, none) = true
    · rw [if_pos hc]
      obtain ⟨tl, htl⟩ := ih (acc ++ [(t, none)])
      refine ⟨tl, ?_⟩
      rw [← htl]
      simp
    · rw [if_neg hc]
      exact ⟨rest.map (fun t => (t, none)), by simp⟩

theorem allLatestImagesLoop_extends (env : ResolverEnv) (c : Consumer) :
    ∀ (stream : List (Except GoError Repository))
      (acc : List (ImageTarget × Option GoError)),
      ∃ tail, allLatestImagesLoop env c stream acc = acc ++ tail := by
  intro stream
  induction stream with
  | nil => exact fun acc => ⟨[], by simp [allLatestImagesLoop]⟩
  | cons entry rest ih =>
    intro acc
    cases entry with
    | error e => exact ⟨_, rfl⟩
    | ok repo =>
      by_cases hf : repo.Format = RepoFormat.DOCKER
      · have hnn : ¬(repo.Format ≠ RepoFormat.DOCKER) := fun hq => hq hf
        cases hs : scanRepository env repo.Name with
        | error e =>
          simp only [allLatestImagesLoop, hs, if_neg hnn]
          by_cases hcy : c acc (ImageTarget.empty,
              some (GoError.wrap (("failed to scan repo ").data ++ repo.Name) e)) = true
          · rw [if_pos hcy]
            obtain ⟨tl, htl⟩ := ih (acc ++ [(ImageTarget.empty,
              some (GoError.wrap (("failed to scan repo ").data ++ repo.Name) e))])
            refine ⟨(ImageTarget.empty,
              some (GoError.wrap (("failed to scan repo ").data ++ repo.Name) e)) :: tl, ?_⟩
            rw [htl]
            simp
          · rw [if_neg hcy]
            exact ⟨[(ImageTarget.empty,
              some (GoError.wrap (("failed to scan repo ").data ++ repo.Name) e))], rfl⟩
        | ok targets =>
          simp only [allLatestImagesLoop, hs, if_neg hnn]
          obtain ⟨tl0, htl0⟩ := pushTargets_extends c targets acc
          cases hpt : pushTargets c targets acc with
          | mk acc2 stopped =>
            rw [hpt] at htl0
            simp only at htl0
            cases stopped with
            | true =>
              refine ⟨tl0, ?_⟩
              show acc2 = acc ++ tl0
              exact htl0
            | false =>
              obtain ⟨tl1, htl1⟩ := ih acc2
              refine ⟨tl0 ++ tl1, ?_⟩
              show allLatestImagesLoop env c rest acc2 = acc ++ (tl0 ++ tl1)
              rw [htl1, htl0, List.append_assoc]
      · simp only [allLatestImagesLoop, if_pos hf]
        exact ih acc

theorem allLatestImagesLoop_stop_below (env : ResolverEnv) (c : Consumer) :
    ∀ (stream : List (Except GoError Repository))
      (acc : List (ImageTarget × Option GoError)),
      ∃ tail, allLatestImagesLoop env consumeAll stream acc =
        allLatestImagesLoop env c stream acc ++ tail := by
  intro stream
  induction stream with
  | nil => exact fun acc => ⟨[], by simp [allLatestImagesLoop]⟩
  | cons entry rest ih =>
    intro acc
    cases entry with
    | error e => exact ⟨[], by simp [allLatestImagesLoop]⟩
    | ok repo =>
      by_cases hf : repo.Format = RepoFormat.DOCKER
      · have hnn : ¬(repo.Format ≠ RepoFormat.DOCKER) := fun hq => hq hf
        cases hs : scanRepository env repo.Name with
        | error e =>
          simp only [allLatestImagesLoop, hs, if_neg hnn]
          by_cases hcy : c acc (ImageTarget.empty,
              some (GoError.wrap (("failed to scan repo ").data ++ repo.Name) e)) = true
          · rw [if_pos hcy, if_pos (show consumeAll acc _ = true from rfl)]
            exact ih _
          · rw [if_neg hcy, if_pos (show consumeAll acc _ = true from rfl)]
            obtain ⟨tl, htl⟩ := allLatestImagesLoop_extends env consumeAll rest
              (acc ++ [(ImageTarget.empty,
                some (GoError.wrap (("failed to scan repo ").data ++ repo.Name) e))])
            exact ⟨tl, htl⟩
        | ok targets =>
          simp only [allLatestImagesLoop, hs, if_neg hnn,
            pushTargets_consumeAll targets acc]
          cases hpt : pushTargets c targets acc with
          | mk acc2 stopped =>
            cases stopped with
            | true =>
              obtain ⟨tl1, htl1⟩ := pushTargets_stop_below c targets acc
              rw [hpt] at htl1
              simp only at htl1
              obtain ⟨tl2, htl2⟩ := allLatestImagesLoop_extends env consumeAll rest
                (acc ++ targets.map (fun t => (t, none)))
              refine ⟨tl1 ++ tl2, ?_⟩
              rw [htl2, htl1, List.append_assoc]
            | false =>
              have hacc2 : acc2 = acc ++ targets.map (fun t => (t, none)) := by
                have := pushTargets_no_stop c targets acc (by rw [hpt])
                rw [hpt] at this
                exact this
              rw [← hacc2]
              exact ih acc2
      · simp only [allLatestImagesLoop, if_pos hf]
        exact ih acc

/-- C2: a repository-list fetch failure yields exactly one
(empty-target, error) pair and the sequence then terminates with no
further items, regardless of the remaining stream and of the consumer;
a failure scanning one repository yields exactly one such pair and
iteration continues with the next repository; and a consumer that stops
at any yield receives a prefix of what a never-stopping consumer
receives — nothing further is produced. -/
theorem c2_resolver_failure_isolation (env : ResolverEnv) (c : Consumer)
    (acc : List (ImageTarget × Option GoError)) (e : GoError)
    (repo : Repository) (stream rest : List (Except GoError Repository)) :
    (allLatestImagesLoop env c (.error e :: rest) acc =
      acc ++ [(ImageTarget.empty,
        some (.wrap ("failed to list repositories").data e))]) ∧
    (repo.Format = RepoFormat.DOCKER → scanRepository env repo.Name = .error e →
      c acc (ImageTarget.empty,
        some (.wrap (("failed to scan repo ").data ++ repo.Name) e)) = true →
      allLatestImagesLoop env c (.ok repo :: rest) acc =
        allLatestImagesLoop env c rest
          (acc ++ [(ImageTarget.empty,
            some (.wrap (("failed to scan repo ").data ++ repo.Name) e))])) ∧
    (∃ tail, allLatestImagesLoop env consumeAll stream acc =
      allLatestImagesLoop env c stream acc ++ tail) := by
  refine ⟨rfl, ?_, ?_⟩
  · intro hf hs hcy
    have hnn : ¬(repo.Format ≠ RepoFormat.DOCKER) := fun hq => hq hf
    simp only [allLatestImagesLoop, hs, if_neg hnn, if_pos hcy]
  · exact allLatestImagesLoop_stop_below env c stream acc

/-- Witness for C2 at `c2Env`: the fatal listing error terminates the
sequence after a single error pair, and the per-repository failure is
followed by continued iteration. -/
theorem c2_witness :
    allLatestImagesLoop c2Env consumeAll
        [.error (.msg ("listing boom").data)] [] =
      [(ImageTarget.empty,
        some (.wrap ("failed to list repositories").data
          (.msg ("listing boom").data)))] ∧
    allLatestImagesLoop c2Env consumeAll
        [.ok ⟨wRepoName, .DOCKER⟩] [] =
      allLatestImagesLoop c2Env consumeAll []
        [(ImageTarget.empty,
          some (.wrap (("failed to scan repo ").data ++ wRepoName)
            (.msg ("image boom").data)))] := by
  constructor
  · exact (c2_resolver_failure_isolation c2Env consumeAll []
      (.msg ("listing boom").data) ⟨wRepoName, .DOCKER⟩ [] []).1
  · exact (c2_resolver_failure_isolation c2Env consumeAll []
      (.msg ("image boom").data) ⟨wRepoName, .DOCKER⟩ [] []).2.1
      rfl (by decide) rfl

/-! ## C5: export and aggregate-error behaviour of `Scan` -/

/-- C5 counterexample: in `c5Env` every dispatched analysis succeeds and
no resolver error is recorded (the collector's error field is `none`),
and `Export` is called exactly once with the full results collection —
yet `Scan` returns the non-nil export failure, not `nil`. -/
theorem c5_counterexample :
    (runCollector c5Env [] false).2 = none ∧
    Scan c5Env [] false =
      (some (.wrap ("failed to export results").data
        (.msg ("export boom").data)), [[c5Res]]) := by
  exact ⟨by decide, by decide⟩

/-- C5 (amended): when `Scan` finishes draining the resolver sequence,
a non-empty results collection is exported exactly once, in full, before
any error is returned (an empty collection is never exported); if no
failure was recorded and the export (when attempted) succeeded, `Scan`
returns nil; if failures were recorded and the export did not itself
fail, `Scan` returns the aggregate that joins every recorded failure,
the results having been exported first; and if the export fails, `Scan`
returns the export error instead. -/
theorem c5_scan_exports_before_errors (env : ScanEnv) (ms : Severity) (fo : Bool) :
    ((runCollector env ms fo).1 ≠ [] →
      (Scan env ms fo).2 = [(runCollector env ms fo).1]) ∧
    ((runCollector env ms fo).1 = [] → (Scan env ms fo).2 = []) ∧
    ((runCollector env ms fo).2 = none →
      ((runCollector env ms fo).1 = [] ∨
        env.exportOutcome (runCollector env ms fo).1 = none) →
      (Scan env ms fo).1 = none) ∧
    (∀ a, (runCollector env ms fo).2 = some a →
      ((runCollector env ms fo).1 = [] ∨
        env.exportOutcome (runCollector env ms fo).1 = none) →
      (Scan env ms fo).1 =
        some (.wrap ("scan completed with partial errors").data a)) ∧
    (∀ e, (runCollector env ms fo).1 ≠ [] →
      env.exportOutcome (runCollector env ms fo).1 = some e →
      (Scan env ms fo).1 = some (.wrap ("failed to export results").data e)) := by
  refine ⟨?_, ?_, ?_, ?_, ?_⟩
  · intro hne
    simp only [Scan, if_pos hne]
    cases hx : env.exportOutcome (runCollector env ms fo).1 with
    | some e => simp
    | none =>
      cases h2 : (runCollector env ms fo).2 with
      | some a => simp
      | none => simp
  · intro hnil
    simp only [Scan, hnil, ne_eq, not_true_eq_false, if_false]
    cases h2 : (runCollector env ms fo).2 with
    | some a => simp
    | none => simp
  · intro h2 hx
    rcases hx with hnil | hx
    · simp only [Scan, hnil, ne_eq, not_true_eq_false, if_false, h2]
    · by_cases hnil : (runCollector env ms fo).1 = []
      · simp only [Scan, hnil, ne_eq, not_true_eq_false, if_false, h2]
      · simp only [Scan, if_pos hnil, hx, h2]
  · intro a h2 hx
    rcases hx with hnil | hx
    · simp only [Scan, hnil, ne_eq, not_true_eq_false, if_false, h2]
    · by_cases hnil : (runCollector env ms fo).1 = []
      · simp only [Scan, hnil, ne_eq, not_true_eq_false, if_false, h2]
      · simp only [Scan, if_pos hnil, hx, h2]
  · intro e hne hx
    simp only [Scan, if_pos hne, hx]

/-- Witness for C5 at `c5EnvOk`: one successful analysis, successful
export — the results are exported once and `Scan` returns nil. -/
theorem c5_witness :
    (Scan c5EnvOk [] false).2 = [[c5Res]] ∧ (Scan c5EnvOk [] false).1 = none := by
  constructor
  · exact (c5_scan_exports_before_errors c5EnvOk [] false).1 (by decide)
  · exact (c5_scan_exports_before_errors c5EnvOk [] false).2.2.1 (by decide)
      (Or.inr (by decide))

end Drydock

